import Mathlib

/-!
Verification of the event-log subsystem of the OpenHands repository:
the Conversation Memory / Delegate Range Tracker (`openhands/memory/conversation_memory.py`)
and the Query/Traversal Engine it drives.

The `ConversationMemory` operations (`on_event`, `reset`, `get_last_events`,
`get_current_user_intent`, `get_last_action`, `get_last_observation`,
`get_last_user_message`, `get_last_agent_message`) are translated directly
from `src/openhands/memory/conversation_memory.py`.

The event stream itself (`openhands/events/stream.py`) and the event/variant
classes are not part of the provided sources; they are modelled from the
specification (sections 3, 4.1 and 4.2) and validated below against the
repository's own tests (`src/tests/unit/test_event_stream.py`).
-/

namespace OpenHands

/-- Modelled from the spec: `source` enum of an Event, section 3
(the class `EventSource` of `openhands/events/event.py` is not under src). -/
inductive EventSource
  | user
  | agent
deriving DecidableEq

/-- Modelled from the spec: the closed set of Action/Observation variants
used by the repository sources and tests (the event classes of
`openhands/events/action` and `openhands/events/observation` are not under src). -/
inductive EventKind
  | nullAction
  | messageAction
  | agentDelegateAction
  | changeAgentStateAction
  | agentFinishAction
  | fileReadAction
  | fileWriteAction
  | nullObservation
  | agentDelegateObservation
  | agentStateChangedObservation
  | fileReadObservation
  | fileWriteObservation
deriving DecidableEq

/-- An Action variant (`isinstance(event, Action)` in the source). -/
def EventKind.isAction : EventKind → Bool
  | .nullAction => true
  | .messageAction => true
  | .agentDelegateAction => true
  | .changeAgentStateAction => true
  | .agentFinishAction => true
  | .fileReadAction => true
  | .fileWriteAction => true
  | _ => false

/-- An Observation variant (`isinstance(event, Observation)` in the source). -/
def EventKind.isObservation (k : EventKind) : Bool :=
  !k.isAction

/-- Modelled from the spec: an Event record, section 3.  `id` is assigned by
the Log at append time.  The payload fields are the ones read by the sources
under src: `agent` and `inputs` of an AgentDelegateAction, `content` and
`images_urls` of a MessageAction; `outputs` and `path` appear only in test
constructions. -/
structure Event where
  id : Nat
  source : EventSource
  kind : EventKind
  agent : String
  inputs : List (String × String)
  outputs : List (String × String)
  content : String
  images_urls : List String
  path : String
deriving DecidableEq

/-- Python `mapping.get(key, default)` over an association list. -/
def dictGet (m : List (String × String)) (k : String) (d : String) : String :=
  match m.find? (fun p => p.1 == k) with
  | some p => p.2
  | none => d

/-- Modelled from the spec: the Event Log's state, section 4.1 — the ordered
in-memory event sequence plus the named subscriber registrations
(`openhands/events/stream.py` is not under src). -/
structure EventStream where
  events : List Event
  subscribers : List String
deriving DecidableEq

/-- The state of `ConversationMemory` (conversation_memory.py lines 20-29):
the attached event stream, the delegate range table `delegates`
(keys `(start_id, end_id)`, values `(agent, task)`), and the start offset
`start_id`. -/
structure ConversationMemory where
  event_stream : EventStream
  delegates : List ((Nat × Nat) × (String × String))
  start_id : Int
deriving DecidableEq

/-- Modelled from the spec: `latest_id()` of section 4.1 — the highest
assigned id, with `-1` as the empty-stream sentinel (the sources use the
value numerically: `get_latest_event_id() - 1`, `end_id - n + 1`). -/
def get_latest_event_id (es : EventStream) : Int :=
  (es.events.length : Int) - 1

/-- Modelled from the spec: the default `filter_out_kinds` set of section 4.2 —
the no-op Action, the no-op Observation, the agent-state-change Action and the
agent-state-changed Observation. -/
def DEFAULT_HIDDEN : List EventKind :=
  [.nullAction, .nullObservation, .changeAgentStateAction, .agentStateChangedObservation]

/-- Id `i` lies strictly between the endpoints of some recorded delegate range. -/
def inDelegateRange (ds : List ((Nat × Nat) × (String × String))) (i : Nat) : Bool :=
  ds.any (fun r => decide (r.1.1 < i) && decide (i < r.1.2))

/-- The per-candidate decision of the Query/Traversal Engine, section 4.2:
keep an event iff it is inside the inclusive id bounds, its variant is not
kind-filtered, and (unless `include_delegates`) its id is not strictly
interior to a recorded delegate range. -/
def keepEvent (s e : Int) (include_delegates : Bool) (fk : List EventKind)
    (ds : List ((Nat × Nat) × (String × String))) (ev : Event) : Bool :=
  decide (s ≤ (ev.id : Int)) && decide ((ev.id : Int) ≤ e) &&
    !(fk.contains ev.kind) && (include_delegates || !(inDelegateRange ds ev.id))

/-- Modelled from the spec: the Query/Traversal Engine `events(...)`,
section 4.2 (`EventStream.get_events` of `openhands/events/stream.py` is not
under src).  `start_id` defaults to the stream's start offset, `end_id` to the
latest id; `reverse` only changes the emission order, the per-candidate
decision is `keepEvent` in both directions. -/
def get_events (cm : ConversationMemory) (start_id end_id : Option Int)
    (reverse include_delegates : Bool) (filter_out_kinds : List EventKind) :
    List Event :=
  if reverse then
    (cm.event_stream.events.reverse).filter
      (keepEvent (start_id.getD cm.start_id)
        (end_id.getD (get_latest_event_id cm.event_stream))
        include_delegates filter_out_kinds cm.delegates)
  else
    cm.event_stream.events.filter
      (keepEvent (start_id.getD cm.start_id)
        (end_id.getD (get_latest_event_id cm.event_stream))
        include_delegates filter_out_kinds cm.delegates)

/-- The backward scan issued by `on_event` (conversation_memory.py lines 71-73):
`get_events(end_id=event.id - 1, reverse=True)` with default start, default
kind filter, delegates excluded. -/
def scanList (cm : ConversationMemory) (ev : Event) : List Event :=
  get_events cm none (some ((ev.id : Int) - 1)) true false DEFAULT_HIDDEN

/-- `ConversationMemory.on_event` (conversation_memory.py lines 56-89): on an
AgentDelegateObservation with id `E`, scan backwards for the first
AgentDelegateAction; if found at `S`, record `(S, E) -> (agent, inputs.get('task', ''))`;
otherwise log and return with the table unchanged. -/
def on_event (cm : ConversationMemory) (ev : Event) : ConversationMemory :=
  if ev.kind == EventKind.agentDelegateObservation then
    match (scanList cm ev).find? (fun p => p.kind == EventKind.agentDelegateAction) with
    | some a =>
        { cm with delegates :=
            cm.delegates ++ [((a.id, ev.id), (a.agent, dictGet a.inputs "task" ""))] }
    | none => cm
  else cm

/-- Modelled from the spec: `append(event_data, source)` of section 4.1 —
assign the next id (ids are dense from 0, so the next id is the current
length), set the source, append, then notify the subscribed tracker
(`on_event`). -/
def add_event (cm : ConversationMemory) (e0 : Event) (src : EventSource) :
    ConversationMemory :=
  let e : Event := { e0 with id := cm.event_stream.events.length, source := src }
  let cm1 : ConversationMemory :=
    { cm with event_stream :=
        { cm.event_stream with events := cm.event_stream.events ++ [e] } }
  on_event cm1 e

/-- `ConversationMemory.__init__` (conversation_memory.py lines 23-29) applied
to a fresh stream: subscribe, empty delegate table, start offset = latest id
of the (empty) stream. -/
def ConversationMemory.init : ConversationMemory :=
  { event_stream := { events := [], subscribers := ["memory"] },
    delegates := [],
    start_id := -1 }

/-- `ConversationMemory.reset` (conversation_memory.py lines 91-96): clear the
delegate table and move the start offset to the stream's current latest id. -/
def reset (cm : ConversationMemory) : ConversationMemory :=
  { cm with delegates := [], start_id := get_latest_event_id cm.event_stream }

/-- `ConversationMemory.get_last_events` (conversation_memory.py lines 42-54). -/
def get_last_events (cm : ConversationMemory) (n : Nat) : List Event :=
  let end_id := get_latest_event_id cm.event_stream
  let start_id := max cm.start_id (end_id - (n : Int) + 1)
  get_events cm (some start_id) (some end_id) false false DEFAULT_HIDDEN

/-- The Python return value of `get_current_user_intent`: the early return
inside the loop yields the bare string `last_user_message`; the fall-through
return yields the pair `(last_user_message, last_user_message_image_urls)`. -/
inductive UserIntent
  | textOnly (text : String)
  | pair (text : Option String) (image_urls : List String)
deriving DecidableEq

/-- The loop of `get_current_user_intent` (conversation_memory.py lines
100-110) over the reverse traversal: a user MessageAction overwrites the
accumulator; an AgentFinishAction returns the bare accumulated string if one
was seen; the fall-through returns the pair. -/
def intentLoop : List Event → Option String → List String → UserIntent
  | [], last, imgs => UserIntent.pair last imgs
  | e :: rest, last, imgs =>
    if e.kind == EventKind.messageAction && e.source == EventSource.user then
      intentLoop rest (some e.content) e.images_urls
    else if e.kind == EventKind.agentFinishAction then
      match last with
      | some t => UserIntent.textOnly t
      | none => intentLoop rest last imgs
    else intentLoop rest last imgs

/-- `ConversationMemory.get_current_user_intent` (conversation_memory.py
lines 98-110). -/
def get_current_user_intent (cm : ConversationMemory) : UserIntent :=
  intentLoop (get_events cm none none true false DEFAULT_HIDDEN) none []

/-- `ConversationMemory.get_last_action` (conversation_memory.py lines
112-130); `end_id = -1` means the default, replaced by `latest - 1`. -/
def get_last_action (cm : ConversationMemory) (end_id : Int) : Option Event :=
  let e := if end_id != -1 then end_id else get_latest_event_id cm.event_stream - 1
  (get_events cm (some cm.start_id) (some e) true false DEFAULT_HIDDEN).find?
    (fun ev => ev.kind.isAction)

/-- `ConversationMemory.get_last_observation` (conversation_memory.py lines
132-150). -/
def get_last_observation (cm : ConversationMemory) (end_id : Int) : Option Event :=
  let e := if end_id != -1 then end_id else get_latest_event_id cm.event_stream - 1
  (get_events cm (some cm.start_id) (some e) true false DEFAULT_HIDDEN).find?
    (fun ev => ev.kind.isObservation)

/-- `ConversationMemory.get_last_user_message` (conversation_memory.py lines
152-165). -/
def get_last_user_message (cm : ConversationMemory) : String :=
  match (get_events cm (some cm.start_id) none true false DEFAULT_HIDDEN).find?
      (fun ev => ev.kind == EventKind.messageAction && ev.source == EventSource.user) with
  | some ev => ev.content
  | none => ""

/-- `ConversationMemory.get_last_agent_message` (conversation_memory.py lines
167-181). -/
def get_last_agent_message (cm : ConversationMemory) : String :=
  match (get_events cm (some cm.start_id) none true false DEFAULT_HIDDEN).find?
      (fun ev => ev.kind == EventKind.messageAction && ev.source == EventSource.agent) with
  | some ev => ev.content
  | none => ""

/-- Well-formed state: ids are exactly the positions — the dense gapless
sequence `0, 1, 2, ...` the Log assigns (spec section 3). -/
def WF (cm : ConversationMemory) : Prop :=
  cm.event_stream.events.map Event.id = List.range cm.event_stream.events.length

instance decidableWF (cm : ConversationMemory) : Decidable (WF cm) :=
  inferInstanceAs (Decidable (cm.event_stream.events.map Event.id
    = List.range cm.event_stream.events.length))

/-- Every key of the delegate range table is a genuine interval. -/
def DelegatesOK (cm : ConversationMemory) : Prop :=
  ∀ p ∈ cm.delegates, p.1.1 < p.1.2

instance decidableDelegatesOK (cm : ConversationMemory) : Decidable (DelegatesOK cm) :=
  inferInstanceAs (Decidable (∀ p ∈ cm.delegates, p.1.1 < p.1.2))

/-- Event payload template for concrete scenarios; `add_event` assigns the id
and the source. -/
def mkEvent (k : EventKind) (ag : String) (inp : List (String × String))
    (c : String) (urls : List String) : Event :=
  { id := 0, source := EventSource.agent, kind := k, agent := ag, inputs := inp,
    outputs := [], content := c, images_urls := urls, path := "" }

/-- Replay a list of appends into a fresh memory. -/
def build (l : List (Event × EventSource)) : ConversationMemory :=
  l.foldl (fun cm p => add_event cm p.1 p.2) ConversationMemory.init

/-- The scenario of `test_exclusions` (test_event_stream.py lines 74-115). -/
def cmExclusions : ConversationMemory :=
  build
    [ (mkEvent EventKind.nullAction "" [] "" [], EventSource.agent),
      (mkEvent EventKind.agentDelegateAction "delegate_agent" [("task", "test_task")] "" [],
        EventSource.agent),
      (mkEvent EventKind.changeAgentStateAction "" [] "" [], EventSource.agent),
      (mkEvent EventKind.fileReadAction "" [] "" [], EventSource.agent),
      (mkEvent EventKind.agentDelegateObservation "" [] "Delegate completed" [],
        EventSource.agent),
      (mkEvent EventKind.agentStateChangedObservation "" [] "unknown" [], EventSource.agent) ]

/-- The scenario of `test_delegate_exclusion_forward_with_file_actions`
(test_event_stream.py lines 118-177); the reverse and inclusion tests use the
same shape of stream. -/
def cmDelegateRW : ConversationMemory :=
  build
    [ (mkEvent EventKind.fileReadAction "" [] "" [], EventSource.agent),
      (mkEvent EventKind.fileReadObservation "" [] "Initial Read" [], EventSource.agent),
      (mkEvent EventKind.agentDelegateAction "delegate_agent" [("task", "delegate_task")] "" [],
        EventSource.agent),
      (mkEvent EventKind.fileWriteAction "" [] "Delegate Content" [], EventSource.agent),
      (mkEvent EventKind.fileWriteObservation "" [] "Delegate Content" [], EventSource.agent),
      (mkEvent EventKind.agentDelegateObservation "" [] "Delegate completed" [],
        EventSource.agent),
      (mkEvent EventKind.fileReadAction "" [] "" [], EventSource.agent) ]

/-- Two file-read actions, nothing else: the no-argument `get_last_action`
caps its search at the first of them. -/
def cmC8 : ConversationMemory :=
  build
    [ (mkEvent EventKind.fileReadAction "" [] "" [], EventSource.agent),
      (mkEvent EventKind.fileReadAction "" [] "" [], EventSource.agent) ]

/-- The first five events of the read/write delegate scenario: the
delegate-completion observation has not yet arrived. -/
def cmC1 : ConversationMemory :=
  build
    [ (mkEvent EventKind.fileReadAction "" [] "" [], EventSource.agent),
      (mkEvent EventKind.fileReadObservation "" [] "Initial Read" [], EventSource.agent),
      (mkEvent EventKind.agentDelegateAction "delegate_agent" [("task", "delegate_task")] "" [],
        EventSource.agent),
      (mkEvent EventKind.fileWriteAction "" [] "Delegate Content" [], EventSource.agent),
      (mkEvent EventKind.fileWriteObservation "" [] "Delegate Content" [], EventSource.agent) ]

/-- The delegate-completion observation delivered to `cmC1`, carrying the
next id 5. -/
def evC1 : Event :=
  { mkEvent EventKind.agentDelegateObservation "" [] "Delegate completed" [] with id := 5 }

/-- The initiating delegate action stored at id 2 of `cmC1`. -/
def daC1 : Event :=
  { mkEvent EventKind.agentDelegateAction "delegate_agent" [("task", "delegate_task")] "" []
      with id := 2 }

/-- A single delegate-initiation action at id 0. -/
def cmC4 : ConversationMemory :=
  build [ (mkEvent EventKind.agentDelegateAction "a" [("task", "t")] "" [], EventSource.agent) ]

/-- A delegate-completion observation with id 1 delivered to `cmC4`. -/
def evC4 : Event :=
  { mkEvent EventKind.agentDelegateObservation "" [] "" [] with id := 1 }

/-- The stored delegate action of `cmC4` (id 0). -/
def daC4 : Event :=
  mkEvent EventKind.agentDelegateAction "a" [("task", "t")] "" []

/-- A delegate-initiation action whose inputs mapping has no task key. -/
def cmC9 : ConversationMemory :=
  build [ (mkEvent EventKind.agentDelegateAction "a" [] "" [], EventSource.agent) ]

/-- A delegate-completion observation with id 1 delivered to `cmC9`. -/
def evC9 : Event :=
  { mkEvent EventKind.agentDelegateObservation "" [] "" [] with id := 1 }

/-- The stored delegate action of `cmC9` (id 0, no task input). -/
def daC9 : Event :=
  mkEvent EventKind.agentDelegateAction "a" [] "" []

/-- Two delegate initiations followed by two delegate completions: the second
completion's backward scan stops at the same initiation (id 1), so the table
holds the overlapping ranges (1,2) and (1,3) and id 2 — the boundary
observation of the recorded range (1,2) — is interior to (1,3). -/
def cmC2 : ConversationMemory :=
  build
    [ (mkEvent EventKind.agentDelegateAction "a1" [("task", "t1")] "" [], EventSource.agent),
      (mkEvent EventKind.agentDelegateAction "a2" [("task", "t2")] "" [], EventSource.agent),
      (mkEvent EventKind.agentDelegateObservation "" [] "" [], EventSource.agent),
      (mkEvent EventKind.agentDelegateObservation "" [] "" [], EventSource.agent) ]

/-- A finish action followed by two user messages: the loop of
`get_current_user_intent` reaches the finish with the accumulator holding the
earliest of the two and returns it as a bare string. -/
def cmC3 : ConversationMemory :=
  build
    [ (mkEvent EventKind.agentFinishAction "" [] "" [], EventSource.agent),
      (mkEvent EventKind.messageAction "" [] "first" [], EventSource.user),
      (mkEvent EventKind.messageAction "" [] "latest" [], EventSource.user) ]

/-- One visible file-read action. -/
def cmC5a : ConversationMemory :=
  build [ (mkEvent EventKind.fileReadAction "" [] "" [], EventSource.agent) ]

/-- The same visible file-read action followed by a default-hidden no-op
action: the default traversal is identical to `cmC5a`, but the latest id
differs. -/
def cmC5b : ConversationMemory :=
  build
    [ (mkEvent EventKind.fileReadAction "" [] "" [], EventSource.agent),
      (mkEvent EventKind.nullAction "" [] "" [], EventSource.agent) ]

/-- Three file-read actions for the `get_last_events` witness. -/
def cmC10 : ConversationMemory :=
  build
    [ (mkEvent EventKind.fileReadAction "" [] "" [], EventSource.agent),
      (mkEvent EventKind.fileReadAction "" [] "" [], EventSource.agent),
      (mkEvent EventKind.fileReadAction "" [] "" [], EventSource.agent) ]

end OpenHands

namespace OpenHands

/-- Unfolding of the traversal decision into its four clauses. -/
theorem keepEvent_iff {s e : Int} {i : Bool} {fk : List EventKind}
    {ds : List ((Nat × Nat) × (String × String))} {ev : Event} :
    keepEvent s e i fk ds ev = true ↔
      (s ≤ (ev.id : Int) ∧ (ev.id : Int) ≤ e ∧ fk.contains ev.kind = false ∧
        (i = true ∨ inDelegateRange ds ev.id = false)) := by
  unfold keepEvent
  cases i <;> cases h : inDelegateRange ds ev.id <;>
    simp [h, Bool.and_eq_true, decide_eq_true_eq, and_assoc]

/-- Membership in a traversal: stored in the stream and kept by the decision
at the resolved bounds. -/
theorem mem_get_events {cm : ConversationMemory} {so eo : Option Int} {r i : Bool}
    {f : List EventKind} {ev : Event} :
    ev ∈ get_events cm so eo r i f ↔
      ev ∈ cm.event_stream.events ∧
        keepEvent (so.getD cm.start_id) (eo.getD (get_latest_event_id cm.event_stream))
          i f cm.delegates ev = true := by
  unfold get_events
  cases r <;> simp [List.mem_filter, List.mem_reverse]

/-- Reverse traversal is the reversal of the forward traversal. -/
theorem get_events_reverse_eq (cm : ConversationMemory) (so eo : Option Int)
    (i : Bool) (f : List EventKind) :
    get_events cm so eo true i f = (get_events cm so eo false i f).reverse := by
  unfold get_events
  simp [List.filter_reverse]

/-- Passing the start offset explicitly is the same as taking the default. -/
theorem get_events_start_default (cm : ConversationMemory) (eo : Option Int)
    (r i : Bool) (f : List EventKind) :
    get_events cm (some cm.start_id) eo r i f = get_events cm none eo r i f := rfl

/-- In a well-formed state every stored event's id is below the length. -/
theorem WF.id_lt {cm : ConversationMemory} (h : WF cm) {ev : Event}
    (hm : ev ∈ cm.event_stream.events) :
    ev.id < cm.event_stream.events.length := by
  have hmem : ev.id ∈ cm.event_stream.events.map Event.id :=
    List.mem_map_of_mem Event.id hm
  rw [h] at hmem
  exact List.mem_range.mp hmem

/-- In a well-formed state the stored events are strictly increasing in id. -/
theorem WF.pairwise_ids {cm : ConversationMemory} (h : WF cm) :
    cm.event_stream.events.Pairwise (fun a b => a.id < b.id) := by
  have hr := List.pairwise_lt_range cm.event_stream.events.length
  rw [← h] at hr
  exact List.pairwise_map.mp hr

/-- In a well-formed state the stored ids are distinct. -/
theorem WF.nodup_ids {cm : ConversationMemory} (h : WF cm) :
    (cm.event_stream.events.map Event.id).Nodup := by
  rw [h]
  exact List.nodup_range _

/-- `find?` over the reversal of a strictly id-sorted list returns the
matching element of greatest id. -/
theorem find_rev_max {l : List Event} {p : Event → Bool} {a : Event}
    (hs : l.Pairwise (fun x y => x.id < y.id))
    (h : (l.reverse).find? p = some a) :
    p a = true ∧ a ∈ l ∧ ∀ b ∈ l, p b = true → b.id ≤ a.id := by
  induction l using List.reverseRecOn with
  | nil => simp at h
  | append_singleton xs x ih =>
    rw [List.reverse_append, List.reverse_singleton, List.singleton_append] at h
    obtain ⟨hxs, -, hcross⟩ := List.pairwise_append.mp hs
    by_cases hp : p x = true
    · rw [List.find?_cons_of_pos _ hp] at h
      obtain rfl : x = a := by injection h
      refine ⟨hp, List.mem_append_right _ (List.mem_singleton_self _), ?_⟩
      intro b hb _
      rcases List.mem_append.mp hb with hbx | hbx
      · exact le_of_lt (hcross b hbx x (List.mem_singleton_self _))
      · rw [List.mem_singleton.mp hbx]
    · rw [List.find?_cons_of_neg _ hp] at h
      obtain ⟨hpa, hmem, hmax⟩ := ih hxs h
      refine ⟨hpa, List.mem_append_left _ hmem, ?_⟩
      intro b hb hpb
      rcases List.mem_append.mp hb with hbx | hbx
      · exact hmax b hbx hpb
      · exact absurd (List.mem_singleton.mp hbx ▸ hpb) hp

/-- Tightening the end bound of the filter commutes with filtering by the
looser bound first, provided every element respects the looser bound. -/
theorem filter_keep_restrict {l : List Event} {s L E : Int} {i : Bool}
    {f : List EventKind} {ds : List ((Nat × Nat) × (String × String))}
    (hbound : ∀ ev ∈ l, (ev.id : Int) ≤ L) :
    l.filter (keepEvent s E i f ds) =
      (l.filter (keepEvent s L i f ds)).filter (fun ev => decide ((ev.id : Int) ≤ E)) := by
  rw [List.filter_filter]
  refine List.filter_congr ?_
  intro ev hm
  have hL : decide ((ev.id : Int) ≤ L) = true := decide_eq_true (hbound ev hm)
  unfold keepEvent
  rw [hL]
  cases hA : decide (s ≤ (ev.id : Int)) <;> cases hE : decide ((ev.id : Int) ≤ E) <;>
    simp [hA, hE]

/-- A traversal with an explicit end bound is the default traversal further
filtered by that bound (forward direction, well-formed state). -/
theorem get_events_restrict_end {cm : ConversationMemory} (hWF : WF cm) (E : Int)
    (i : Bool) (f : List EventKind) :
    get_events cm none (some E) false i f =
      (get_events cm none none false i f).filter (fun ev => decide ((ev.id : Int) ≤ E)) := by
  have hbound : ∀ ev ∈ cm.event_stream.events,
      (ev.id : Int) ≤ get_latest_event_id cm.event_stream := by
    intro ev hm
    have := hWF.id_lt hm
    unfold get_latest_event_id
    omega
  have h1 : get_events cm none (some E) false i f
      = cm.event_stream.events.filter (keepEvent cm.start_id E i f cm.delegates) := rfl
  have h2 : get_events cm none none false i f
      = cm.event_stream.events.filter
          (keepEvent cm.start_id (get_latest_event_id cm.event_stream) i f cm.delegates) := rfl
  rw [h1, h2, filter_keep_restrict hbound]

/-- Model validation: `test_exclusions` — reverse default traversal of the
six-event stream yields ids `[4, 1]`. -/
theorem model_test_exclusions :
    (get_events cmExclusions none none true false DEFAULT_HIDDEN).map Event.id = [4, 1] := by
  decide

/-- Model validation: `test_delegate_exclusion_forward_with_file_actions` —
forward default traversal yields ids `[0, 1, 2, 5, 6]`. -/
theorem model_test_delegate_exclusion_forward :
    (get_events cmDelegateRW none none false false DEFAULT_HIDDEN).map Event.id
      = [0, 1, 2, 5, 6] := by
  decide

/-- Model validation: `test_delegate_exclusion_reverse_with_file_actions` —
reverse default traversal yields ids `[6, 5, 2, 1, 0]`. -/
theorem model_test_delegate_exclusion_reverse :
    (get_events cmDelegateRW none none true false DEFAULT_HIDDEN).map Event.id
      = [6, 5, 2, 1, 0] := by
  decide

/-- Model validation: `test_delegate_inclusion_with_file_actions` — forward
traversal with `include_delegates` yields every id. -/
theorem model_test_delegate_inclusion :
    (get_events cmDelegateRW none none false true DEFAULT_HIDDEN).map Event.id
      = [0, 1, 2, 3, 4, 5, 6] := by
  decide

/-- Model validation: the tracker recorded the range `(2, 5)` with the
delegate metadata of the initiating action. -/
theorem model_test_delegate_table :
    cmDelegateRW.delegates = [((2, 5), ("delegate_agent", "delegate_task"))] := by
  decide

end OpenHands

namespace OpenHands

/-- C6: for every stream state and every identical combination of start_id,
end_id, include_delegates and kind-filter arguments, the sequence produced by
traversal with reverse=True is exactly the reversal of the sequence produced
with reverse=False. -/
theorem C6_reverse_is_reversal (cm : ConversationMemory) (so eo : Option Int)
    (i : Bool) (f : List EventKind) :
    get_events cm so eo true i f = (get_events cm so eo false i f).reverse :=
  get_events_reverse_eq cm so eo i f

/-- C7: reset empties the delegate range table and moves the start offset to
the stream's current latest event id, and leaves the event stream — its event
sequence (hence its id counter) and its subscriber registrations — unchanged. -/
theorem C7_reset_frame (cm : ConversationMemory) :
    (reset cm).delegates = [] ∧
    (reset cm).start_id = get_latest_event_id cm.event_stream ∧
    (reset cm).event_stream = cm.event_stream :=
  ⟨rfl, rfl, rfl⟩

/-- C8: with the default argument, get_last_action and get_last_observation
search only ids up to latest_event_id - 1, so any returned event has id at
most latest - 1 — the most recently appended event is never returned. -/
theorem C8_default_cap (cm : ConversationMemory) :
    (∀ a, get_last_action cm (-1) = some a →
      (a.id : Int) ≤ get_latest_event_id cm.event_stream - 1) ∧
    (∀ o, get_last_observation cm (-1) = some o →
      (o.id : Int) ≤ get_latest_event_id cm.event_stream - 1) := by
  constructor
  · intro a ha
    have hred : get_last_action cm (-1)
        = (get_events cm (some cm.start_id)
            (some (get_latest_event_id cm.event_stream - 1)) true false
            DEFAULT_HIDDEN).find? (fun ev => ev.kind.isAction) := rfl
    rw [hred] at ha
    have hmem := List.mem_of_find?_eq_some ha
    have hkeep := (mem_get_events.mp hmem).2
    exact (keepEvent_iff.mp hkeep).2.1
  · intro o ho
    have hred : get_last_observation cm (-1)
        = (get_events cm (some cm.start_id)
            (some (get_latest_event_id cm.event_stream - 1)) true false
            DEFAULT_HIDDEN).find? (fun ev => ev.kind.isObservation) := rfl
    rw [hred] at ho
    have hmem := List.mem_of_find?_eq_some ho
    have hkeep := (mem_get_events.mp hmem).2
    exact (keepEvent_iff.mp hkeep).2.1

/-- C8 witness: on a two-action stream the default call returns the first
action, whose id 0 is at most latest - 1 = 0. -/
theorem C8_default_cap_witness :
    get_last_action cmC8 (-1) = some (mkEvent EventKind.fileReadAction "" [] "" []) ∧
    ((mkEvent EventKind.fileReadAction "" [] "" []).id : Int)
      ≤ get_latest_event_id cmC8.event_stream - 1 :=
  ⟨by decide, (C8_default_cap cmC8).1 (mkEvent EventKind.fileReadAction "" [] "" []) (by decide)⟩

end OpenHands

namespace OpenHands

/-- When the backward scan finds a delegate action, `on_event` appends exactly
one table entry built from that action. -/
theorem on_event_eq_of_find_some {cm : ConversationMemory} {ev a : Event}
    (hk : ev.kind = EventKind.agentDelegateObservation)
    (hfind : (scanList cm ev).find? (fun q => q.kind == EventKind.agentDelegateAction)
      = some a) :
    on_event cm ev = { cm with delegates :=
        cm.delegates ++ [((a.id, ev.id), (a.agent, dictGet a.inputs "task" ""))] } := by
  unfold on_event
  rw [if_pos (by simp [hk]), hfind]

/-- When the backward scan finds no delegate action, `on_event` is the
identity (fails open). -/
theorem on_event_eq_of_find_none {cm : ConversationMemory} {ev : Event}
    (hfind : (scanList cm ev).find? (fun q => q.kind == EventKind.agentDelegateAction)
      = none) :
    on_event cm ev = cm := by
  unfold on_event
  by_cases hk : (ev.kind == EventKind.agentDelegateObservation) = true
  · rw [if_pos hk, hfind]
  · rw [if_neg hk]

/-- `on_event` either leaves the table unchanged or appends the entry built
from the found initiating action. -/
theorem on_event_delegates_cases (cm : ConversationMemory) (ev : Event) :
    (on_event cm ev).delegates = cm.delegates ∨
    ∃ a, (scanList cm ev).find? (fun q => q.kind == EventKind.agentDelegateAction)
        = some a ∧
      ev.kind = EventKind.agentDelegateObservation ∧
      (on_event cm ev).delegates
        = cm.delegates ++ [((a.id, ev.id), (a.agent, dictGet a.inputs "task" ""))] := by
  by_cases hk : ev.kind = EventKind.agentDelegateObservation
  · cases hfind : (scanList cm ev).find?
        (fun q => q.kind == EventKind.agentDelegateAction) with
    | none => exact Or.inl (congrArg ConversationMemory.delegates
        (on_event_eq_of_find_none hfind))
    | some a =>
        refine Or.inr ⟨a, rfl, hk, ?_⟩
        rw [on_event_eq_of_find_some hk hfind]
  · left
    unfold on_event
    rw [if_neg (by simp [hk])]

/-- `on_event` never touches the event stream or the start offset. -/
theorem on_event_frame (cm : ConversationMemory) (ev : Event) :
    (on_event cm ev).event_stream = cm.event_stream ∧
    (on_event cm ev).start_id = cm.start_id := by
  unfold on_event
  by_cases hk : (ev.kind == EventKind.agentDelegateObservation) = true
  · rw [if_pos hk]
    cases (scanList cm ev).find? (fun q => q.kind == EventKind.agentDelegateAction) with
    | none => exact ⟨rfl, rfl⟩
    | some a => exact ⟨rfl, rfl⟩
  · rw [if_neg hk]
    exact ⟨rfl, rfl⟩

/-- Every event of the backward scan lies between the start offset and E-1. -/
theorem scanList_bounds (cm : ConversationMemory) (ev : Event) :
    ∀ b ∈ scanList cm ev,
      cm.start_id ≤ (b.id : Int) ∧ (b.id : Int) ≤ (ev.id : Int) - 1 := by
  intro b hb
  unfold scanList at hb
  have hkeep := (mem_get_events.mp hb).2
  have h := keepEvent_iff.mp hkeep
  exact ⟨h.1, h.2.1⟩

/-- C1: on a delegate-completion observation with id E, the tracker scans the
visible prior events in descending id order; if the scan finds a delegate
initiation it records exactly the range from the nearest such action (the one
of greatest id at most E-1 among the scanned events) to E, with the agent and
the task taken from that action, and changes nothing else; if the scan finds
none, the state is returned unchanged (fails open). -/
theorem C1_tracker_records_nearest (cm : ConversationMemory) (ev : Event)
    (hk : ev.kind = EventKind.agentDelegateObservation) (hWF : WF cm) :
    (∀ a, (scanList cm ev).find? (fun q => q.kind == EventKind.agentDelegateAction)
        = some a →
      (on_event cm ev).delegates
          = cm.delegates ++ [((a.id, ev.id), (a.agent, dictGet a.inputs "task" ""))] ∧
      (on_event cm ev).event_stream = cm.event_stream ∧
      (on_event cm ev).start_id = cm.start_id ∧
      a.kind = EventKind.agentDelegateAction ∧
      a ∈ scanList cm ev ∧
      (∀ b ∈ scanList cm ev, b.kind = EventKind.agentDelegateAction → b.id ≤ a.id)) ∧
    ((scanList cm ev).find? (fun q => q.kind == EventKind.agentDelegateAction) = none →
      on_event cm ev = cm) := by
  constructor
  · intro a hfind
    have hfwd : scanList cm ev
        = (get_events cm none (some ((ev.id : Int) - 1)) false false DEFAULT_HIDDEN).reverse :=
      get_events_reverse_eq cm none (some ((ev.id : Int) - 1)) false DEFAULT_HIDDEN
    have hsub : (get_events cm none (some ((ev.id : Int) - 1)) false false
        DEFAULT_HIDDEN).Sublist cm.event_stream.events := List.filter_sublist _
    have hpw := List.Pairwise.sublist hsub hWF.pairwise_ids
    have hfind0 := hfind
    rw [hfwd] at hfind0
    obtain ⟨hpa, hmem, hmax⟩ := find_rev_max hpw hfind0
    have hka : a.kind = EventKind.agentDelegateAction := by simpa using hpa
    refine ⟨?_, ?_, ?_, hka, ?_, ?_⟩
    · rw [on_event_eq_of_find_some hk hfind]
    · exact (on_event_frame cm ev).1
    · exact (on_event_frame cm ev).2
    · rw [hfwd]
      exact List.mem_reverse.mpr hmem
    · intro b hb hkb
      rw [hfwd] at hb
      exact hmax b (List.mem_reverse.mp hb) (by simp [hkb])
  · intro hfind
    exact on_event_eq_of_find_none hfind

/-- C1 witness: delivering the completion observation with id 5 to the
five-event stream records the range (2,5) from the initiation at id 2. -/
theorem C1_tracker_records_nearest_witness :
    ((scanList cmC1 evC1).find? (fun q => q.kind == EventKind.agentDelegateAction)
        = some daC1) ∧
    ((on_event cmC1 evC1).delegates
        = cmC1.delegates ++ [((daC1.id, evC1.id), (daC1.agent, dictGet daC1.inputs "task" ""))] ∧
      (on_event cmC1 evC1).event_stream = cmC1.event_stream ∧
      (on_event cmC1 evC1).start_id = cmC1.start_id ∧
      daC1.kind = EventKind.agentDelegateAction ∧
      daC1 ∈ scanList cmC1 evC1 ∧
      (∀ b ∈ scanList cmC1 evC1, b.kind = EventKind.agentDelegateAction → b.id ≤ daC1.id)) :=
  ⟨by decide,
    (C1_tracker_records_nearest cmC1 evC1 rfl (by decide)).1 daC1 (by decide)⟩

/-- C4: the backward scan triggered by an observation with id E only ever
visits events with id between the start offset and E-1 inclusive, and any
newly recorded range starts inside those bounds — never before the offset. -/
theorem C4_scan_respects_offset (cm : ConversationMemory) (ev : Event) :
    (∀ b ∈ scanList cm ev,
      cm.start_id ≤ (b.id : Int) ∧ (b.id : Int) ≤ (ev.id : Int) - 1) ∧
    (∀ p ∈ (on_event cm ev).delegates, p ∉ cm.delegates →
      cm.start_id ≤ (p.1.1 : Int) ∧ (p.1.1 : Int) ≤ (ev.id : Int) - 1) := by
  refine ⟨scanList_bounds cm ev, ?_⟩
  intro p hp hnot
  rcases on_event_delegates_cases cm ev with heq | ⟨a, hfind, -, heq⟩
  · rw [heq] at hp
    exact absurd hp hnot
  · rw [heq] at hp
    rcases List.mem_append.mp hp with hold | hnew
    · exact absurd hold hnot
    · have hpa := List.mem_singleton.mp hnew
      have hmem := List.mem_of_find?_eq_some hfind
      have hb := scanList_bounds cm ev a hmem
      rw [hpa]
      exact hb

/-- C4 witness: the scan for the observation with id 1 visits only the
initiation at id 0, and the recorded range starts at 0, inside the bounds. -/
theorem C4_scan_respects_offset_witness :
    (daC4 ∈ scanList cmC4 evC4 ∧
      (cmC4.start_id ≤ (daC4.id : Int) ∧ (daC4.id : Int) ≤ (evC4.id : Int) - 1)) ∧
    (((0, 1), ("a", "t")) ∈ (on_event cmC4 evC4).delegates ∧
      (((0, 1), ("a", "t")) ∈ cmC4.delegates → False) ∧
      (cmC4.start_id ≤ ((0 : Nat) : Int) ∧ ((0 : Nat) : Int) ≤ (evC4.id : Int) - 1)) :=
  ⟨⟨by decide, (C4_scan_respects_offset cmC4 evC4).1 daC4 (by decide)⟩,
    ⟨by decide, by decide,
      (C4_scan_respects_offset cmC4 evC4).2 ((0, 1), ("a", "t")) (by decide) (by decide)⟩⟩

end OpenHands

namespace OpenHands

/-- Any entry `on_event` appends has a start strictly below its end. -/
theorem delegatesOK_on_event (cm : ConversationMemory) (ev : Event)
    (h : DelegatesOK cm) : DelegatesOK (on_event cm ev) := by
  intro p hp
  rcases on_event_delegates_cases cm ev with heq | ⟨a, hfind, -, heq⟩
  · rw [heq] at hp
    exact h p hp
  · rw [heq] at hp
    rcases List.mem_append.mp hp with hold | hnew
    · exact h p hold
    · rw [List.mem_singleton.mp hnew]
      have hmem := List.mem_of_find?_eq_some hfind
      have hb := scanList_bounds cm ev a hmem
      have hlt : (a.id : Int) ≤ (ev.id : Int) - 1 := hb.2
      show a.id < ev.id
      omega

/-- `add_event` preserves the interval shape of the delegate table. -/
theorem delegatesOK_add_event (cm : ConversationMemory) (e0 : Event)
    (src : EventSource) (h : DelegatesOK cm) : DelegatesOK (add_event cm e0 src) :=
  delegatesOK_on_event _ _ (fun p hp => h p hp)

/-- C9: every key (s, e) of the delegate range table satisfies s < e (hence
0 <= s < e), the invariant is preserved by on_event, reset and add_event, and
when the initiating action's inputs mapping has no task key the recorded task
metadata is the empty string. -/
theorem C9_delegate_table_invariant (cm : ConversationMemory) (ev : Event)
    (src : EventSource) (h : DelegatesOK cm) :
    DelegatesOK (on_event cm ev) ∧
    DelegatesOK (reset cm) ∧
    DelegatesOK (add_event cm ev src) ∧
    (∀ p ∈ (on_event cm ev).delegates, p ∉ cm.delegates →
      ∀ a, (scanList cm ev).find? (fun q => q.kind == EventKind.agentDelegateAction)
          = some a →
        a.inputs.find? (fun q => q.1 == "task") = none → p.2.2 = "") := by
  refine ⟨delegatesOK_on_event cm ev h, ?_, delegatesOK_add_event cm ev src h, ?_⟩
  · intro p hp
    simp only [reset, List.not_mem_nil] at hp
  · intro p hp hnot a hfind hnokey
    rcases on_event_delegates_cases cm ev with heq | ⟨a2, hfind2, -, heq⟩
    · rw [heq] at hp
      exact absurd hp hnot
    · rw [heq] at hp
      rcases List.mem_append.mp hp with hold | hnew
      · exact absurd hold hnot
      · rw [List.mem_singleton.mp hnew]
        have ha : a2 = a := by
          rw [hfind2] at hfind
          injection hfind
        rw [ha]
        unfold dictGet
        rw [hnokey]

/-- C9 witness: the completion at id 1 over the taskless initiation at id 0
records the interval (0, 1) with an empty task string. -/
theorem C9_delegate_table_invariant_witness :
    DelegatesOK cmC9 ∧
    DelegatesOK (on_event cmC9 evC9) ∧
    (((0, 1), ("a", "")) ∈ (on_event cmC9 evC9).delegates ∧
      ((((0, 1), ("a", "")) : (Nat × Nat) × (String × String)) ∈ cmC9.delegates → False) ∧
      (scanList cmC9 evC9).find? (fun q => q.kind == EventKind.agentDelegateAction)
        = some daC9 ∧
      daC9.inputs.find? (fun q => q.1 == "task") = none ∧
      ((((0, 1), ("a", "")) : (Nat × Nat) × (String × String))).2.2 = "") :=
  ⟨by decide,
    (C9_delegate_table_invariant cmC9 evC9 EventSource.agent (by decide)).1,
    by decide, by decide, by decide, by decide,
    (C9_delegate_table_invariant cmC9 evC9 EventSource.agent (by decide)).2.2.2
      ((0, 1), ("a", "")) (by decide) (by decide) daC9 (by decide) (by decide)⟩

end OpenHands

namespace OpenHands

/-- C2 counterexample: in the reachable state with two completions matched to
the same initiation, the table holds the range (1,2); the traversal with
include_delegates=False and an empty kind filter does not emit the boundary
observation at id 2 of that range (it is interior to the other recorded range
(1,3)), contradicting the claim that boundary events are never excluded by
range membership. -/
theorem C2_counterexample :
    (((1, 2), ("a2", "t2")) ∈ cmC2.delegates) ∧
    cmC2.event_stream.events.map (fun ev => (ev.id, ev.kind))
      = [(0, EventKind.agentDelegateAction), (1, EventKind.agentDelegateAction),
         (2, EventKind.agentDelegateObservation), (3, EventKind.agentDelegateObservation)] ∧
    (get_events cmC2 none none false false []).map Event.id = [0, 1, 3] := by
  decide

/-- C2 (amended): for every recorded range (S, E), traversal without
delegates emits no event strictly interior to (S, E); a stored event at a
boundary id S or E inside the query bounds is emitted provided its variant is
not kind-filtered and it is not strictly interior to another recorded range;
with include_delegates=True every stored event of [S, E] inside the query
bounds and not kind-filtered is emitted. -/
theorem C2_range_exclusion_amended (cm : ConversationMemory) (S E : Nat)
    (m : String × String) (hmem : ((S, E), m) ∈ cm.delegates) (s e : Int)
    (r : Bool) (f : List EventKind) :
    (∀ ev ∈ get_events cm (some s) (some e) r false f, ¬(S < ev.id ∧ ev.id < E)) ∧
    (∀ ev ∈ cm.event_stream.events, (ev.id = S ∨ ev.id = E) →
      s ≤ (ev.id : Int) → (ev.id : Int) ≤ e → f.contains ev.kind = false →
      inDelegateRange cm.delegates ev.id = false →
      ev ∈ get_events cm (some s) (some e) r false f) ∧
    (∀ ev ∈ cm.event_stream.events, S ≤ ev.id → ev.id ≤ E →
      s ≤ (ev.id : Int) → (ev.id : Int) ≤ e → f.contains ev.kind = false →
      ev ∈ get_events cm (some s) (some e) r true f) := by
  refine ⟨?_, ?_, ?_⟩
  · intro ev hev hint
    have hkeep := (mem_get_events.mp hev).2
    have hcl := (keepEvent_iff.mp hkeep).2.2.2
    have hfalse : inDelegateRange cm.delegates ev.id = false := by
      rcases hcl with hcl | hcl
      · exact absurd hcl (by simp)
      · exact hcl
    have htrue : inDelegateRange cm.delegates ev.id = true := by
      unfold inDelegateRange
      refine List.any_eq_true.mpr ⟨((S, E), m), hmem, ?_⟩
      simp [hint.1, hint.2]
    rw [htrue] at hfalse
    simp at hfalse
  · intro ev hev hbd hs he hf hnr
    exact mem_get_events.mpr ⟨hev, keepEvent_iff.mpr ⟨hs, he, hf, Or.inr hnr⟩⟩
  · intro ev hev hS hE hs he hf
    exact mem_get_events.mpr ⟨hev, keepEvent_iff.mpr ⟨hs, he, hf, Or.inl rfl⟩⟩

end OpenHands

namespace OpenHands

/-- C2 witness: instantiating the amended statement at the recorded range
(1,3) of the overlapping-range state, with bounds covering the whole stream
and an empty kind filter. -/
theorem C2_range_exclusion_amended_witness :
    (((1, 3), ("a2", "t2")) ∈ cmC2.delegates) ∧
    (∀ ev ∈ get_events cmC2 (some (-1)) (some 3) false false [],
      ¬(1 < ev.id ∧ ev.id < 3)) ∧
    (∀ ev ∈ cmC2.event_stream.events, 1 ≤ ev.id → ev.id ≤ 3 →
      (-1 : Int) ≤ (ev.id : Int) → (ev.id : Int) ≤ 3 →
      ([] : List EventKind).contains ev.kind = false →
      ev ∈ get_events cmC2 (some (-1)) (some 3) false true []) :=
  ⟨by decide,
    (C2_range_exclusion_amended cmC2 1 3 ("a2", "t2") (by decide) (-1) 3 false []).1,
    (C2_range_exclusion_amended cmC2 1 3 ("a2", "t2") (by decide) (-1) 3 false []).2.2⟩

/-- C3: evaluating `get_current_user_intent` on a stream holding a finish
action (id 0) followed by two user messages (ids 1 and 2): the code takes the
early return and yields the bare string of the earliest post-finish user
message, not the claimed pair carrying the latest one; the latest user
message of the stream is `latest`, as `get_last_user_message` shows. -/
theorem C3_intent_returns_bare_first :
    get_current_user_intent cmC3 = UserIntent.textOnly "first" ∧
    get_last_user_message cmC3 = "latest" := by
  decide

/-- C5 counterexample: the two states have identical offset-bounded,
delegate-excluding, default-kind-filtered traversals, the same offset and the
same delegate table, yet the no-argument `get_last_action` differs — the
appended default-hidden no-op moved the `latest - 1` cap. -/
theorem C5_counterexample :
    get_events cmC5a none none false false DEFAULT_HIDDEN
      = get_events cmC5b none none false false DEFAULT_HIDDEN ∧
    cmC5a.start_id = cmC5b.start_id ∧
    cmC5a.delegates = cmC5b.delegates ∧
    get_last_action cmC5a (-1) = none ∧
    get_last_action cmC5b (-1)
      = some (mkEvent EventKind.fileReadAction "" [] "" []) := by
  decide

end OpenHands

namespace OpenHands

/-- The no-argument `get_last_action` searches the reversal of the default
forward traversal truncated at `latest - 1`. -/
theorem get_last_action_default_eq (cm : ConversationMemory) (hWF : WF cm) :
    get_last_action cm (-1)
      = (((get_events cm none none false false DEFAULT_HIDDEN).filter
            (fun ev => decide ((ev.id : Int) ≤ get_latest_event_id cm.event_stream - 1))).reverse).find?
          (fun ev => ev.kind.isAction) := by
  have hdef : get_last_action cm (-1)
      = (get_events cm (some cm.start_id)
          (some (get_latest_event_id cm.event_stream - 1)) true false
          DEFAULT_HIDDEN).find? (fun ev => ev.kind.isAction) := rfl
  rw [hdef, get_events_start_default, get_events_reverse_eq,
    get_events_restrict_end hWF]

/-- The no-argument `get_last_observation` searches the reversal of the
default forward traversal truncated at `latest - 1`. -/
theorem get_last_observation_default_eq (cm : ConversationMemory) (hWF : WF cm) :
    get_last_observation cm (-1)
      = (((get_events cm none none false false DEFAULT_HIDDEN).filter
            (fun ev => decide ((ev.id : Int) ≤ get_latest_event_id cm.event_stream - 1))).reverse).find?
          (fun ev => ev.kind.isObservation) := by
  have hdef : get_last_observation cm (-1)
      = (get_events cm (some cm.start_id)
          (some (get_latest_event_id cm.event_stream - 1)) true false
          DEFAULT_HIDDEN).find? (fun ev => ev.kind.isObservation) := rfl
  rw [hdef, get_events_start_default, get_events_reverse_eq,
    get_events_restrict_end hWF]

/-- `get_last_user_message` searches the reversal of the default forward
traversal. -/
theorem get_last_user_message_eq (cm : ConversationMemory) :
    get_last_user_message cm
      = (match ((get_events cm none none false false DEFAULT_HIDDEN).reverse).find?
            (fun ev => ev.kind == EventKind.messageAction
              && ev.source == EventSource.user) with
        | some ev => ev.content
        | none => "") := by
  unfold get_last_user_message
  rw [get_events_start_default, get_events_reverse_eq]

/-- `get_last_agent_message` searches the reversal of the default forward
traversal. -/
theorem get_last_agent_message_eq (cm : ConversationMemory) :
    get_last_agent_message cm
      = (match ((get_events cm none none false false DEFAULT_HIDDEN).reverse).find?
            (fun ev => ev.kind == EventKind.messageAction
              && ev.source == EventSource.agent) with
        | some ev => ev.content
        | none => "") := by
  unfold get_last_agent_message
  rw [get_events_start_default, get_events_reverse_eq]

/-- C5 (amended): current_user_intent, last_user_message and
last_agent_message are functions of the offset-bounded, delegate-excluding,
default-kind-filtered traversal alone — equal traversals give equal results
with no further assumption; last_action and last_observation with the
default argument are (on well-formed states) functions of that traversal and
of the stream's latest event id, which caps their search at latest - 1 (so
even a default-hidden append moves the cap); last_user_message and
last_agent_message return the empty string when the traversal holds no
user/agent message. -/
theorem C5_queries_amended (cm1 cm2 : ConversationMemory)
    (h : get_events cm1 none none false false DEFAULT_HIDDEN
        = get_events cm2 none none false false DEFAULT_HIDDEN) :
    get_current_user_intent cm1 = get_current_user_intent cm2 ∧
    get_last_user_message cm1 = get_last_user_message cm2 ∧
    get_last_agent_message cm1 = get_last_agent_message cm2 ∧
    (WF cm1 → WF cm2 →
      get_latest_event_id cm1.event_stream = get_latest_event_id cm2.event_stream →
      get_last_action cm1 (-1) = get_last_action cm2 (-1) ∧
      get_last_observation cm1 (-1) = get_last_observation cm2 (-1)) ∧
    ((∀ ev ∈ get_events cm1 none none false false DEFAULT_HIDDEN,
        ¬(ev.kind = EventKind.messageAction ∧ ev.source = EventSource.user)) →
      get_last_user_message cm1 = "") ∧
    ((∀ ev ∈ get_events cm1 none none false false DEFAULT_HIDDEN,
        ¬(ev.kind = EventKind.messageAction ∧ ev.source = EventSource.agent)) →
      get_last_agent_message cm1 = "") := by
  refine ⟨?_, ?_, ?_, ?_, ?_, ?_⟩
  · unfold get_current_user_intent
    rw [get_events_reverse_eq, get_events_reverse_eq, h]
  · rw [get_last_user_message_eq, get_last_user_message_eq, h]
  · rw [get_last_agent_message_eq, get_last_agent_message_eq, h]
  · intro hWF1 hWF2 hl
    constructor
    · rw [get_last_action_default_eq cm1 hWF1, get_last_action_default_eq cm2 hWF2, h, hl]
    · rw [get_last_observation_default_eq cm1 hWF1,
        get_last_observation_default_eq cm2 hWF2, h, hl]
  · intro hall
    rw [get_last_user_message_eq]
    have hnone : ((get_events cm1 none none false false DEFAULT_HIDDEN).reverse).find?
        (fun ev => ev.kind == EventKind.messageAction
          && ev.source == EventSource.user) = none := by
      refine List.find?_eq_none.mpr ?_
      intro x hx
      have hmem := List.mem_reverse.mp hx
      have hno := hall x hmem
      simp only [Bool.and_eq_true, beq_iff_eq]
      intro hcon
      exact hno ⟨hcon.1, hcon.2⟩
    rw [hnone]
  · intro hall
    rw [get_last_agent_message_eq]
    have hnone : ((get_events cm1 none none false false DEFAULT_HIDDEN).reverse).find?
        (fun ev => ev.kind == EventKind.messageAction
          && ev.source == EventSource.agent) = none := by
      refine List.find?_eq_none.mpr ?_
      intro x hx
      have hmem := List.mem_reverse.mp hx
      have hno := hall x hmem
      simp only [Bool.and_eq_true, beq_iff_eq]
      intro hcon
      exact hno ⟨hcon.1, hcon.2⟩
    rw [hnone]

/-- C5 witness: the traversal-only conjuncts applied across the frontier pair
cmC5a/cmC5b — equal traversals but different latest ids — so the three
traversal-only queries agree between the two states; the capped conjunct is
exercised at cmC5a against itself, and the traversal of cmC5a holds no
message, so last_user_message is empty. -/
theorem C5_queries_amended_witness :
    (get_events cmC5a none none false false DEFAULT_HIDDEN
        = get_events cmC5b none none false false DEFAULT_HIDDEN) ∧
    get_latest_event_id cmC5a.event_stream ≠ get_latest_event_id cmC5b.event_stream ∧
    get_current_user_intent cmC5a = get_current_user_intent cmC5b ∧
    get_last_user_message cmC5a = get_last_user_message cmC5b ∧
    get_last_agent_message cmC5a = get_last_agent_message cmC5b ∧
    (get_last_action cmC5a (-1) = get_last_action cmC5a (-1) ∧
      get_last_observation cmC5a (-1) = get_last_observation cmC5a (-1)) ∧
    get_last_user_message cmC5a = "" :=
  ⟨by decide,
    by decide,
    (C5_queries_amended cmC5a cmC5b (by decide)).1,
    (C5_queries_amended cmC5a cmC5b (by decide)).2.1,
    (C5_queries_amended cmC5a cmC5b (by decide)).2.2.1,
    (C5_queries_amended cmC5a cmC5a rfl).2.2.2.1 (by decide) (by decide) rfl,
    (C5_queries_amended cmC5a cmC5a rfl).2.2.2.2.1 (by decide)⟩

end OpenHands

namespace OpenHands

/-- C10: for n >= 1, get_last_events returns at most n events, in strictly
ascending id order, and never an event whose id is below the start offset
(default-hidden kinds and the offset may leave fewer than n). -/
theorem C10_get_last_events_shape (cm : ConversationMemory) (n : Nat)
    (_hn : 1 ≤ n) (hWF : WF cm) :
    (get_last_events cm n).length ≤ n ∧
    (get_last_events cm n).Pairwise (fun a b => a.id < b.id) ∧
    (∀ ev ∈ get_last_events cm n, cm.start_id ≤ (ev.id : Int)) := by
  have hdef : get_last_events cm n
      = cm.event_stream.events.filter
          (keepEvent (max cm.start_id (get_latest_event_id cm.event_stream - (n : Int) + 1))
            (get_latest_event_id cm.event_stream) false DEFAULT_HIDDEN cm.delegates) := rfl
  have hsub : (get_last_events cm n).Sublist cm.event_stream.events := by
    rw [hdef]
    exact List.filter_sublist _
  refine ⟨?_, List.Pairwise.sublist hsub hWF.pairwise_ids, ?_⟩
  · have hnodupIds : ((get_last_events cm n).map Event.id).Nodup :=
      List.Nodup.sublist (List.Sublist.map Event.id hsub) hWF.nodup_ids
    have hinj : Function.Injective (fun k : Nat => (k : Int)) := by
      intro a b hab
      have hab2 : (a : Int) = (b : Int) := hab
      exact_mod_cast hab2
    have hnodupInt :
        (((get_last_events cm n).map Event.id).map (fun k : Nat => (k : Int))).Nodup :=
      hnodupIds.map hinj
    have hsubset : ∀ x ∈ ((get_last_events cm n).map Event.id).map (fun k : Nat => (k : Int)),
        x ∈ Finset.Icc
          (max cm.start_id (get_latest_event_id cm.event_stream - (n : Int) + 1))
          (get_latest_event_id cm.event_stream) := by
      intro x hx
      simp only [List.map_map, List.mem_map] at hx
      obtain ⟨ev, hev, rfl⟩ := hx
      rw [hdef] at hev
      have hkeep := (List.mem_filter.mp hev).2
      have hk := keepEvent_iff.mp hkeep
      exact Finset.mem_Icc.mpr ⟨hk.1, hk.2.1⟩
    have h1 := List.toFinset_card_of_nodup hnodupInt
    have h2 : (((get_last_events cm n).map Event.id).map (fun k : Nat => (k : Int))).toFinset
        ⊆ Finset.Icc
          (max cm.start_id (get_latest_event_id cm.event_stream - (n : Int) + 1))
          (get_latest_event_id cm.event_stream) := by
      intro x hx
      exact hsubset x (List.mem_toFinset.mp hx)
    have h3 := Finset.card_le_card h2
    rw [h1] at h3
    have h4 : (((get_last_events cm n).map Event.id).map (fun k : Nat => (k : Int))).length ≤ n := by
      calc (((get_last_events cm n).map Event.id).map (fun k : Nat => (k : Int))).length
          ≤ (Finset.Icc
              (max cm.start_id (get_latest_event_id cm.event_stream - (n : Int) + 1))
              (get_latest_event_id cm.event_stream)).card := h3
        _ = ((get_latest_event_id cm.event_stream) + 1
              - max cm.start_id (get_latest_event_id cm.event_stream - (n : Int) + 1)).toNat :=
            Int.card_Icc _ _
        _ ≤ n := by
            rw [Int.toNat_le]
            have hmax := le_max_right cm.start_id
              (get_latest_event_id cm.event_stream - (n : Int) + 1)
            omega
    simpa using h4
  · intro ev hev
    rw [hdef] at hev
    have hkeep := (List.mem_filter.mp hev).2
    have hk := keepEvent_iff.mp hkeep
    exact le_trans (le_max_left _ _) hk.1

/-- C10 witness: on the three-action stream, asking for the last 2 events
returns at most 2, in ascending order, all at or above the offset. -/
theorem C10_get_last_events_shape_witness :
    (1 ≤ 2 ∧ WF cmC10) ∧
    ((get_last_events cmC10 2).length ≤ 2 ∧
      (get_last_events cmC10 2).Pairwise (fun a b => a.id < b.id) ∧
      (∀ ev ∈ get_last_events cmC10 2, cmC10.start_id ≤ (ev.id : Int))) :=
  ⟨⟨by decide, by decide⟩, C10_get_last_events_shape cmC10 2 (by decide) (by decide)⟩

end OpenHands

namespace OpenHands

/-- The fresh state is well-formed. -/
theorem WF_init : WF ConversationMemory.init := rfl

/-- `reset` preserves well-formedness (it does not touch the stream). -/
theorem WF_reset (cm : ConversationMemory) (h : WF cm) : WF (reset cm) := h

/-- `add_event` preserves well-formedness: the appended event carries the
next dense id. -/
theorem WF_add_event (cm : ConversationMemory) (e0 : Event) (src : EventSource)
    (h : WF cm) : WF (add_event cm e0 src) := by
  have hred : add_event cm e0 src = on_event
      { cm with event_stream := { cm.event_stream with
          events := cm.event_stream.events
            ++ [{ e0 with id := cm.event_stream.events.length, source := src }] } }
      { e0 with id := cm.event_stream.events.length, source := src } := rfl
  unfold WF
  rw [hred, (on_event_frame _ _).1]
  show (cm.event_stream.events
      ++ [{ e0 with id := cm.event_stream.events.length, source := src }]).map Event.id
    = List.range (cm.event_stream.events
      ++ [{ e0 with id := cm.event_stream.events.length, source := src }]).length
  rw [List.map_append, List.length_append]
  unfold WF at h
  simp [h, List.range_succ]

/-- Every state reachable by replaying appends from the fresh state is
well-formed, so the WF hypotheses of the theorems above hold on all
reachable states. -/
theorem WF_build (l : List (Event × EventSource)) : WF (build l) := by
  unfold build
  have hgen : ∀ (t : List (Event × EventSource)) (cm : ConversationMemory), WF cm →
      WF (t.foldl (fun c p => add_event c p.1 p.2) cm) := by
    intro t
    induction t with
    | nil => intro cm h; exact h
    | cons p rest ih =>
        intro cm h
        exact ih _ (WF_add_event cm p.1 p.2 h)
  exact hgen l ConversationMemory.init WF_init

end OpenHands
